import Mathlib

/-!
Shallow embedding of `src/Datacite_DOI_checker.py` (DOI Resolver Checker for
DataCite) and proofs of the specification claims about it.

The script's network-facing functions are embedded as pure functions over an
explicit model of the network's answers:
* `check_doi_resolves` takes, besides the DOI, a map `net : Nat → AttemptOutcome`
  giving the outcome of each successive `requests.head` attempt (a completed
  HTTP response with a status code, or a network-level failure, i.e. a
  `requests.RequestException`).
* `fetch_all_dois` takes the sequence of page responses the DataCite API would
  return to the successive page requests.
* The `ThreadPoolExecutor` result-collection loop is embedded as `check_all`,
  parameterised by the completion order of the submitted futures.
-/

/-- `RETRY_DELAY = 2.0` (seconds slept between retry attempts; timing itself is
not modelled, the constant is kept for fidelity as a natural number of tenths
is unnecessary — we only record its value in seconds ×1). -/
def RETRY_DELAY : Nat := 2

/-- `MAX_RETRIES = 3`. -/
def MAX_RETRIES : Nat := 3

/-- `PER_PAGE = 1000`. -/
def PER_PAGE : Nat := 1000

/-- `MAX_WORKERS = 10  # Parallel requests`. -/
def MAX_WORKERS : Nat := 10

/-- Outcome of one `requests.head(url, allow_redirects=True, timeout=10)` call:
either a completed HTTP response (with its final status code after redirects)
or a network-level failure raising `requests.RequestException`. -/
inductive AttemptOutcome where
  | response (status_code : Nat)
  | netError
deriving DecidableEq, Repr

/-- The status value a check reports: a numeric HTTP status code, or the
`"Timeout/Error"` sentinel string. -/
inductive StatusVal where
  | code (n : Nat)
  | timeoutError
deriving DecidableEq, Repr

/-- How the status value is rendered as a CSV field (Python's `str()`). -/
def StatusVal.render : StatusVal → String
  | .code n => toString n
  | .timeoutError => "Timeout/Error"

/-- The triple `check_doi_resolves` returns, instrumented with the number of
`requests.head` attempts that were made. -/
structure CheckResult where
  doi : String
  resolves : String
  status : StatusVal
  attempts : Nat
deriving DecidableEq, Repr

/-- The retry loop of `check_doi_resolves`: `attempt` counts the `requests.head`
calls already made (the source's `retries` counter), `remaining` is
`MAX_RETRIES + 1 - retries`, i.e. how many more iterations the
`while retries <= MAX_RETRIES` loop will run. On a completed response the
function returns immediately with `"Yes"` iff the status code is in
`[200, 301, 302]`; on `requests.RequestException` it increments the counter and
retries; when the loop exhausts it returns `("No", "Timeout/Error")`. -/
def check_go (doi : String) (net : Nat → AttemptOutcome) : Nat → Nat → CheckResult
  | attempt, 0 => ⟨doi, "No", .timeoutError, attempt⟩
  | attempt, remaining + 1 =>
    match net attempt with
    | .response sc =>
        ⟨doi, if sc ∈ [200, 301, 302] then "Yes" else "No", .code sc, attempt + 1⟩
    | .netError => check_go doi net (attempt + 1) remaining

/-- `check_doi_resolves(doi)` from the source, with the network's behaviour
made explicit: `net k` is the outcome of the `(k+1)`-st attempt. -/
def check_doi_resolves (doi : String) (net : Nat → AttemptOutcome) : CheckResult :=
  check_go doi net 0 (MAX_RETRIES + 1)

theorem check_go_doi (doi : String) (net : Nat → AttemptOutcome) :
    ∀ remaining attempt, (check_go doi net attempt remaining).doi = doi := by
  intro remaining
  induction remaining with
  | zero => intro attempt; rfl
  | succ r ih =>
    intro attempt
    unfold check_go
    cases net attempt with
    | response sc => rfl
    | netError => exact ih (attempt + 1)

theorem check_go_status_code (doi : String) (net : Nat → AttemptOutcome) :
    ∀ remaining attempt sc, (check_go doi net attempt remaining).status = .code sc →
      (check_go doi net attempt remaining).resolves =
        (if sc ∈ [200, 301, 302] then "Yes" else "No") := by
  intro remaining
  induction remaining with
  | zero => intro attempt sc h; exact absurd h (by simp [check_go])
  | succ r ih =>
    intro attempt sc h
    unfold check_go at h ⊢
    cases hn : net attempt with
    | response sc' =>
      rw [hn] at h
      simp only at h
      have : sc' = sc := by
        have := congrArg (fun s => s) h
        cases h; rfl
      subst this
      rfl
    | netError =>
      rw [hn] at h
      exact ih (attempt + 1) sc h

/-- C2: for a check that completes with an HTTP response, `resolves` is
`"Yes"` iff the final status code is one of 200, 301, 302, and `"No"`
(together with that numeric status code) otherwise. -/
theorem check_doi_resolves_classification (doi : String) (net : Nat → AttemptOutcome)
    (sc : Nat) (h : (check_doi_resolves doi net).status = .code sc) :
    ((check_doi_resolves doi net).resolves = "Yes" ↔ sc ∈ [200, 301, 302]) ∧
      (sc ∉ [200, 301, 302] → (check_doi_resolves doi net).resolves = "No") := by
  have hr := check_go_status_code doi net (MAX_RETRIES + 1) 0 sc h
  unfold check_doi_resolves at *
  rw [hr]
  constructor
  · constructor
    · intro hy
      by_contra hmem
      rw [if_neg hmem] at hy
      exact absurd hy (by decide)
    · intro hmem; rw [if_pos hmem]
  · intro hmem; rw [if_neg hmem]

/-- Witness for C2 at a concrete input: a network that answers 404 on the
first attempt. -/
theorem check_doi_resolves_classification_witness :
    ((check_doi_resolves "10.1/x" fun _ => .response 404).status = .code 404) ∧
      (((check_doi_resolves "10.1/x" fun _ => .response 404).resolves = "Yes" ↔
          404 ∈ [200, 301, 302]) ∧
        (404 ∉ [200, 301, 302] →
          (check_doi_resolves "10.1/x" fun _ => .response 404).resolves = "No")) :=
  ⟨by decide, check_doi_resolves_classification "10.1/x" (fun _ => .response 404) 404 (by decide)⟩

/-- C3: when every attempt fails at the network level, the checker makes
exactly `1 + MAX_RETRIES = 4` attempts and returns the
`("No", "Timeout/Error")` value rather than raising. -/
theorem check_doi_resolves_exhausted (doi : String) (net : Nat → AttemptOutcome)
    (h : ∀ k, k < MAX_RETRIES + 1 → net k = .netError) :
    check_doi_resolves doi net = ⟨doi, "No", .timeoutError, 4⟩ := by
  have h0 := h 0 (by decide)
  have h1 := h 1 (by decide)
  have h2 := h 2 (by decide)
  have h3 := h 3 (by decide)
  unfold check_doi_resolves MAX_RETRIES
  unfold check_go
  rw [h0]
  unfold check_go
  rw [h1]
  unfold check_go
  rw [h2]
  unfold check_go
  rw [h3]
  rfl

/-- Witness for C3: the everywhere-failing network. -/
theorem check_doi_resolves_exhausted_witness :
    (∀ k, k < MAX_RETRIES + 1 → (fun _ : Nat => AttemptOutcome.netError) k = .netError) ∧
      check_doi_resolves "10.1/y" (fun _ => .netError) = ⟨"10.1/y", "No", .timeoutError, 4⟩ :=
  ⟨fun _ _ => rfl, check_doi_resolves_exhausted "10.1/y" _ (fun _ _ => rfl)⟩

/-- C4: a first attempt that completes with an HTTP error status (not in
{200, 301, 302}) is not retried: the checker returns `("No", that code)`
after exactly one attempt. -/
theorem check_doi_resolves_http_error_no_retry (doi : String) (net : Nat → AttemptOutcome)
    (sc : Nat) (h0 : net 0 = .response sc) (hns : sc ∉ [200, 301, 302]) :
    check_doi_resolves doi net = ⟨doi, "No", .code sc, 1⟩ := by
  unfold check_doi_resolves MAX_RETRIES
  unfold check_go
  rw [h0]
  simp only [if_neg hns]

/-- Witness for C4: a network whose first attempt answers 404. -/
theorem check_doi_resolves_http_error_no_retry_witness :
    ((fun _ : Nat => AttemptOutcome.response 404) 0 = .response 404) ∧
      (404 ∉ [200, 301, 302]) ∧
      check_doi_resolves "10.1/z" (fun _ => .response 404) = ⟨"10.1/z", "No", .code 404, 1⟩ :=
  ⟨rfl, by decide,
    check_doi_resolves_http_error_no_retry "10.1/z" _ 404 rfl (by decide)⟩

/-- One item of the catalog API's JSON `data` array: `item["id"]` and
`item["attributes"]["url"]`, the latter possibly missing (the source reads it
with `item["attributes"].get("url", "")`). -/
structure CatalogItem where
  id : String
  attributes_url : Option String
deriving DecidableEq, Repr

/-- One HTTP response to a catalog page request: `response.status_code`, the
parsed `data` array, and `response.text` (the body used in the error message). -/
structure PageResponse where
  status_code : Nat
  items : List CatalogItem
  text : String
deriving DecidableEq, Repr

/-- The observable result of `fetch_all_dois`: the page requests issued (page
number and `page[size]`, in order), the `st.error` message contents if a page
failed (HTTP status and body), and the returned list of
`(doi, registered_url)` pairs. -/
structure FetchResult where
  requests : List (Nat × Nat)
  error : Option (Nat × String)
  dois : List (String × String)
deriving DecidableEq, Repr

/-- `(item["id"], item["attributes"].get("url", ""))`. -/
def item_doi (it : CatalogItem) : String × String :=
  (it.id, it.attributes_url.getD "")

/-- The `while True` pagination loop of `fetch_all_dois`. `page` is the 1-based
page counter, `acc` the `dois` accumulator, `reqs` the requests issued so far.
The loop requests the next page; on a non-200 response it reports the status
and body via `st.error` and returns `[]`; on an empty `data` array it breaks
and returns the accumulated list; otherwise it appends the page's items and
continues with `page + 1`. `responses` is the stream of answers the API gives
to the successive requests; `none` means the supplied stream ran out before
the loop terminated. -/
def fetch_go : List PageResponse → Nat → List (String × String) → List (Nat × Nat) →
    Option FetchResult
  | [], _, _, _ => none
  | r :: rest, page, acc, reqs =>
    if r.status_code ≠ 200 then
      some ⟨reqs ++ [(page, PER_PAGE)], some (r.status_code, r.text), []⟩
    else if r.items = [] then
      some ⟨reqs ++ [(page, PER_PAGE)], none, acc⟩
    else
      fetch_go rest (page + 1) (acc ++ r.items.map item_doi) (reqs ++ [(page, PER_PAGE)])

/-- `fetch_all_dois(username, password, prefix)` with the API's page responses
made explicit; the loop starts at page 1 with empty accumulators. -/
def fetch_all_dois (responses : List PageResponse) : Option FetchResult :=
  fetch_go responses 1 [] []

theorem fetch_go_cons (r : PageResponse) (rest : List PageResponse) (page : Nat)
    (acc : List (String × String)) (reqs : List (Nat × Nat)) :
    fetch_go (r :: rest) page acc reqs =
      if r.status_code ≠ 200 then
        some ⟨reqs ++ [(page, PER_PAGE)], some (r.status_code, r.text), []⟩
      else if r.items = [] then
        some ⟨reqs ++ [(page, PER_PAGE)], none, acc⟩
      else
        fetch_go rest (page + 1) (acc ++ r.items.map item_doi) (reqs ++ [(page, PER_PAGE)]) :=
  rfl

theorem fetch_go_ok_pages (rs : List PageResponse)
    (hok : ∀ r ∈ rs, r.status_code = 200 ∧ r.items ≠ []) :
    ∀ (tail : List PageResponse) (page : Nat) (acc : List (String × String))
      (reqs : List (Nat × Nat)),
      fetch_go (rs ++ tail) page acc reqs =
        fetch_go tail (page + rs.length)
          (acc ++ (rs.map (fun r => r.items.map item_doi)).flatten)
          (reqs ++ (List.range' page rs.length).map (fun p => (p, PER_PAGE))) := by
  induction rs with
  | nil => intro tail page acc reqs; simp [List.range']
  | cons r rs ih =>
    intro tail page acc reqs
    have hr := hok r (by simp)
    have hrs : ∀ x ∈ rs, x.status_code = 200 ∧ x.items ≠ [] := by
      intro x hx; exact hok x (by simp [hx])
    rw [List.cons_append, fetch_go_cons]
    rw [if_neg (by rw [hr.1]; simp), if_neg hr.2]
    rw [ih hrs tail (page + 1) (acc ++ r.items.map item_doi) (reqs ++ [(page, PER_PAGE)])]
    simp only [List.length_cons, List.map_cons, List.flatten_cons, List.range'_succ,
      List.append_assoc, List.cons_append, List.singleton_append, List.nil_append]
    rw [show page + 1 + rs.length = page + (rs.length + 1) from by omega]

/-- C5: pagination requests pages 1, 2, … at size `PER_PAGE = 1000`,
concatenates the items of the non-empty pages in page order, and stops exactly
at the first page whose `data` array is empty (that page is still requested,
so `rs.length + 1` requests are made in total). -/
theorem fetch_all_dois_pagination (rs : List PageResponse) (last : PageResponse)
    (hok : ∀ r ∈ rs, r.status_code = 200 ∧ r.items ≠ [])
    (hlast : last.status_code = 200 ∧ last.items = []) :
    fetch_all_dois (rs ++ [last]) =
      some ⟨(List.range' 1 (rs.length + 1)).map (fun p => (p, PER_PAGE)), none,
        (rs.map (fun r => r.items.map item_doi)).flatten⟩ := by
  unfold fetch_all_dois
  rw [fetch_go_ok_pages rs hok [last] 1 [] []]
  rw [fetch_go_cons]
  rw [if_neg (by rw [hlast.1]; simp), if_pos hlast.2]
  have hc : List.range' 1 (rs.length + 1) = List.range' 1 rs.length ++ [1 + rs.length] := by
    simpa using @List.range'_concat 1 1 rs.length
  rw [hc]
  simp

/-- C6: if some page request gets a non-200 response, pagination aborts at
that page (no later page is requested), the status and body are surfaced via
`st.error`, and no records are returned — the earlier pages' records are
discarded. -/
theorem fetch_all_dois_abort_on_error (rs : List PageResponse) (bad : PageResponse)
    (rest : List PageResponse)
    (hok : ∀ r ∈ rs, r.status_code = 200 ∧ r.items ≠ [])
    (hbad : bad.status_code ≠ 200) :
    fetch_all_dois (rs ++ bad :: rest) =
      some ⟨(List.range' 1 (rs.length + 1)).map (fun p => (p, PER_PAGE)),
        some (bad.status_code, bad.text), []⟩ := by
  unfold fetch_all_dois
  rw [fetch_go_ok_pages rs hok (bad :: rest) 1 [] []]
  rw [fetch_go_cons]
  rw [if_pos hbad]
  have hc : List.range' 1 (rs.length + 1) = List.range' 1 rs.length ++ [1 + rs.length] := by
    simpa using @List.range'_concat 1 1 rs.length
  rw [hc]
  simp

/-- A full catalog page used in concrete instances: `n` identical items,
HTTP 200, empty body. -/
def samplePage (n : Nat) : PageResponse :=
  ⟨200, List.replicate n ⟨"10.5/d", some "https://example.org/r"⟩, ""⟩

/-- Witness for C5 at the claim's concrete shape: pages of sizes
[1000, 1000, 37, 0] yield exactly 2037 records and pagination stops after the
4th request. -/
theorem fetch_all_dois_pagination_witness :
    (∀ r ∈ [samplePage 1000, samplePage 1000, samplePage 37],
        r.status_code = 200 ∧ r.items ≠ []) ∧
      ((samplePage 0).status_code = 200 ∧ (samplePage 0).items = []) ∧
      fetch_all_dois ([samplePage 1000, samplePage 1000, samplePage 37] ++ [samplePage 0]) =
        some ⟨(List.range' 1 ([samplePage 1000, samplePage 1000, samplePage 37].length + 1)).map
            (fun p => (p, PER_PAGE)), none,
          ([samplePage 1000, samplePage 1000, samplePage 37].map
            (fun r => r.items.map item_doi)).flatten⟩ ∧
      (([samplePage 1000, samplePage 1000, samplePage 37].map
          (fun r => r.items.map item_doi)).flatten).length = 2037 ∧
      (List.range' 1 ([samplePage 1000, samplePage 1000, samplePage 37].length + 1)).map
          (fun p => (p, PER_PAGE)) = [(1, 1000), (2, 1000), (3, 1000), (4, 1000)] :=
  ⟨by decide, by decide,
    fetch_all_dois_pagination [samplePage 1000, samplePage 1000, samplePage 37] (samplePage 0)
      (by decide) (by decide),
    by
      simp only [samplePage, List.map_cons, List.map_nil, List.flatten_cons, List.flatten_nil,
        List.length_append, List.length_nil, List.length_map, List.length_replicate],
    by decide⟩

/-- Witness for C6 at the claim's concrete shape: page 2 answers HTTP 500, so
the fetch surfaces `(500, body)` and discards page 1's records. -/
theorem fetch_all_dois_abort_on_error_witness :
    (∀ r ∈ [samplePage 2], r.status_code = 200 ∧ r.items ≠ []) ∧
      ((⟨500, [], "server error"⟩ : PageResponse).status_code ≠ 200) ∧
      fetch_all_dois ([samplePage 2] ++ (⟨500, [], "server error"⟩ : PageResponse) :: []) =
        some ⟨(List.range' 1 ([samplePage 2].length + 1)).map (fun p => (p, PER_PAGE)),
          some ((500 : Nat), "server error"), []⟩ :=
  ⟨by decide, by decide,
    fetch_all_dois_abort_on_error [samplePage 2] ⟨500, [], "server error"⟩ [] (by decide)
      (by decide)⟩

/-- `dict(futures.values())[d]`: the `futures` dict's values are the
`(doi, reg_url)` pairs in `dois` order; building a `dict` from that pair list
lets later pairs overwrite earlier ones, and indexing raises `KeyError`
(modelled as `none`) when the key is absent. -/
def lookup_reg_url (dois : List (String × String)) (d : String) : Option String :=
  match dois.reverse.find? (fun p => p.1 = d) with
  | some p => some p.2
  | none => none

/-- The `for i, future in enumerate(as_completed(futures))` result-collection
loop. `order` is the rest of the completion order of the futures (each
carrying its `(doi, reg_url)` record); `i` is the enumeration counter;
`total = len(futures)`; `net d` is the network behaviour seen by the check of
DOI `d`. Each iteration unpacks `future.result()`, looks the returned DOI up
in `dict(futures.values())`, appends `(doi, reg_url, resolves, status_code)`
to `results`, and reports progress `Checked i+1 of total`. Returns the
`results` list and the list of progress reports; `none` models an uncaught
`KeyError` from the lookup. -/
def check_all_go (dois : List (String × String)) (net : String → Nat → AttemptOutcome)
    (total : Nat) :
    List (String × String) → Nat →
      Option (List (String × String × String × StatusVal) × List (Nat × Nat))
  | [], _ => some ([], [])
  | p :: rest, i =>
    let r := check_doi_resolves p.1 (net p.1)
    match lookup_reg_url dois r.doi with
    | none => none
    | some u =>
      match check_all_go dois net total rest (i + 1) with
      | none => none
      | some (rows, ps) =>
          some ((r.doi, u, r.resolves, r.status) :: rows, (i + 1, total) :: ps)

/-- The whole parallel-check block: submit one `check_doi_resolves` future per
`(doi, reg_url)` in `dois`, then collect results in completion order `order`,
with `total = len(futures) = dois.length`. -/
def check_all (dois order : List (String × String)) (net : String → Nat → AttemptOutcome) :
    Option (List (String × String × String × StatusVal) × List (Nat × Nat)) :=
  check_all_go dois net dois.length order 0

theorem check_doi_resolves_doi (doi : String) (net : Nat → AttemptOutcome) :
    (check_doi_resolves doi net).doi = doi :=
  check_go_doi doi net (MAX_RETRIES + 1) 0

theorem lookup_reg_url_mem (dois : List (String × String)) (p : String × String)
    (hp : p ∈ dois) : ∃ u, lookup_reg_url dois p.1 = some u ∧ (p.1, u) ∈ dois := by
  have hex : ∃ q ∈ dois.reverse, (fun q : String × String => decide (q.1 = p.1)) q = true := by
    exact ⟨p, by simpa using hp, by simp⟩
  have hsome : (dois.reverse.find? (fun q => q.1 = p.1)).isSome := by
    rw [List.find?_isSome]
    exact hex
  obtain ⟨q, hq⟩ := Option.isSome_iff_exists.mp hsome
  have hq1 : q.1 = p.1 := by
    have := List.find?_some hq
    simpa using this
  have hqmem : q ∈ dois := by
    have := List.mem_of_find?_eq_some hq
    simpa using this
  refine ⟨q.2, ?_, ?_⟩
  · unfold lookup_reg_url
    rw [hq]
  · rw [← hq1]
    exact hqmem

theorem check_all_go_cons (dois : List (String × String)) (net : String → Nat → AttemptOutcome)
    (total : Nat) (p : String × String) (rest : List (String × String)) (i : Nat) :
    check_all_go dois net total (p :: rest) i =
      match lookup_reg_url dois (check_doi_resolves p.1 (net p.1)).doi with
      | none => none
      | some u =>
        match check_all_go dois net total rest (i + 1) with
        | none => none
        | some (rows, ps) =>
            some (((check_doi_resolves p.1 (net p.1)).doi, u,
                (check_doi_resolves p.1 (net p.1)).resolves,
                (check_doi_resolves p.1 (net p.1)).status) :: rows,
              (i + 1, total) :: ps) :=
  rfl

theorem check_all_go_spec (dois : List (String × String)) (net : String → Nat → AttemptOutcome)
    (total : Nat) :
    ∀ (order : List (String × String)), (∀ p ∈ order, p ∈ dois) → ∀ i,
      ∃ rows ps, check_all_go dois net total order i = some (rows, ps) ∧
        rows.map (fun r => r.1) = order.map Prod.fst ∧
        (∀ r ∈ rows, (r.1, r.2.1) ∈ dois) ∧
        ps = (List.range' (i + 1) order.length).map (fun n => (n, total)) := by
  intro order
  induction order with
  | nil =>
    intro _ i
    exact ⟨[], [], rfl, rfl, by simp, by simp [List.range']⟩
  | cons p rest ih =>
    intro hmem i
    have hp : p ∈ dois := hmem p (by simp)
    obtain ⟨u, hu, humem⟩ := lookup_reg_url_mem dois p hp
    obtain ⟨rows, ps, heq, hfst, hrows, hps⟩ :=
      ih (fun q hq => hmem q (by simp [hq])) (i + 1)
    refine ⟨(p.1, u, (check_doi_resolves p.1 (net p.1)).resolves,
        (check_doi_resolves p.1 (net p.1)).status) :: rows,
      (i + 1, total) :: ps, ?_, ?_, ?_, ?_⟩
    · rw [check_all_go_cons, check_doi_resolves_doi, hu, heq]
    · simpa using hfst
    · intro r hr
      rcases List.mem_cons.mp hr with h | h
      · subst h; exact humem
      · exact hrows r h
    · rw [hps]
      simp only [List.length_cons, List.range'_succ, List.map_cons]

/-- C1: with pairwise-distinct identifiers, the result-collection loop
produces exactly one report row per submitted record — the result's
identifiers are a permutation of the input identifiers (no duplicates, no
drops), and every row carries the registered URL of the record with that
identifier.  The checker never throws (it is a total function here), so
errored checks are included like any other. -/
theorem check_all_one_row_per_record (dois order : List (String × String))
    (net : String → Nat → AttemptOutcome)
    (hnodup : (dois.map Prod.fst).Nodup) (hperm : order.Perm dois) :
    ∃ rows ps, check_all dois order net = some (rows, ps) ∧
      (rows.map (fun r => r.1)).Perm (dois.map Prod.fst) ∧
      (∀ r ∈ rows, (r.1, r.2.1) ∈ dois ∧ ∀ u, (r.1, u) ∈ dois → u = r.2.1) ∧
      rows.length = dois.length := by
  obtain ⟨rows, ps, heq, hfst, hrows, hps⟩ :=
    check_all_go_spec dois net dois.length order (fun p hp => hperm.mem_iff.mp hp) 0
  refine ⟨rows, ps, heq, ?_, ?_, ?_⟩
  · rw [hfst]
    exact hperm.map Prod.fst
  · intro r hr
    refine ⟨hrows r hr, ?_⟩
    intro u hu
    have := List.inj_on_of_nodup_map hnodup hu (hrows r hr) rfl
    exact congrArg Prod.snd this
  · have h1 : (rows.map (fun r => r.1)).length = (order.map Prod.fst).length := by rw [hfst]
    simpa [hperm.length_eq] using h1

/-- Witness for C1: two records completed in reversed order, one of which
errors out; each identifier appears exactly once with its registered URL. -/
theorem check_all_one_row_per_record_witness :
    (([("10.1/a", "https://a"), ("10.1/b", "https://b")].map Prod.fst).Nodup) ∧
      ([("10.1/b", "https://b"), ("10.1/a", "https://a")].Perm
        [("10.1/a", "https://a"), ("10.1/b", "https://b")]) ∧
      ∃ rows ps,
        check_all [("10.1/a", "https://a"), ("10.1/b", "https://b")]
            [("10.1/b", "https://b"), ("10.1/a", "https://a")]
            (fun d _ => if d = "10.1/a" then .response 200 else .netError) =
          some (rows, ps) ∧
        (rows.map (fun r => r.1)).Perm
          ([("10.1/a", "https://a"), ("10.1/b", "https://b")].map Prod.fst) ∧
        (∀ r ∈ rows, (r.1, r.2.1) ∈ [("10.1/a", "https://a"), ("10.1/b", "https://b")] ∧
          ∀ u, (r.1, u) ∈ [("10.1/a", "https://a"), ("10.1/b", "https://b")] → u = r.2.1) ∧
        rows.length = [("10.1/a", "https://a"), ("10.1/b", "https://b")].length :=
  ⟨by decide, by decide,
    check_all_one_row_per_record _ _ (fun d _ => if d = "10.1/a" then .response 200 else .netError)
      (by decide) (by decide)⟩

/-- C7: for a (non-empty, as required by the `if dois:` guard) input list of N
identifiers, the progress report is issued exactly N times, once per completed
outcome, with strictly increasing completed counts 1, 2, …, N out of N,
reaching `(N, N)` exactly once, at the end. -/
theorem check_all_progress_calls (dois order : List (String × String))
    (net : String → Nat → AttemptOutcome)
    (hperm : order.Perm dois) (hne : dois ≠ []) :
    ∃ rows ps, check_all dois order net = some (rows, ps) ∧
      ps.length = dois.length ∧
      ps.map Prod.fst = List.range' 1 dois.length ∧
      (∀ q ∈ ps, q.2 = dois.length) ∧
      List.Pairwise (fun a b => a.1 < b.1) ps ∧
      ps.getLast? = some (dois.length, dois.length) ∧
      @List.count (Nat × Nat) instBEqOfDecidableEq (dois.length, dois.length) ps = 1 := by
  obtain ⟨rows, ps, heq, hfst, hrows, hps⟩ :=
    check_all_go_spec dois net dois.length order (fun p hp => hperm.mem_iff.mp hp) 0
  have hlen : order.length = dois.length := hperm.length_eq
  simp only [Nat.zero_add, hlen] at hps
  subst hps
  have hN : dois.length ≠ 0 := fun h => hne (List.length_eq_zero.mp h)
  obtain ⟨M, hM⟩ := Nat.exists_eq_succ_of_ne_zero hN
  have hcat : List.range' 1 dois.length = List.range' 1 M ++ [1 + M] := by
    rw [hM]
    simpa using @List.range'_concat 1 1 M
  have hpair : List.Pairwise (fun a b : Nat × Nat => a.1 < b.1)
      ((List.range' 1 dois.length).map (fun n => (n, dois.length))) := by
    refine List.Pairwise.map _ (fun a b h => h) ?_
    exact List.pairwise_lt_range' 1 dois.length
  have hlast : ((List.range' 1 dois.length).map (fun n => (n, dois.length))).getLast? =
      some (dois.length, dois.length) := by
    rw [hcat, List.map_append, List.map_singleton, List.getLast?_concat]
    rw [show (1 + M : Nat) = dois.length from by omega]
  have hmem : (dois.length, dois.length) ∈
      (List.range' 1 dois.length).map (fun n => (n, dois.length)) := by
    rw [hcat, List.map_append]
    rw [show (1 + M : Nat) = dois.length from by omega]
    simp
  have hnd : ((List.range' 1 dois.length).map (fun n => (n, dois.length))).Nodup := by
    refine hpair.imp ?_
    intro a b h hab
    rw [hab] at h
    exact lt_irrefl _ h
  refine ⟨rows, _, heq, ?_, ?_, ?_, hpair, hlast, ?_⟩
  · simp
  · rw [List.map_map]
    have hcomp : (Prod.fst ∘ fun n : Nat => (n, dois.length)) = id := rfl
    rw [hcomp, List.map_id]
  · intro q hq
    obtain ⟨n, _, rfl⟩ := List.mem_map.mp hq
    rfl
  · exact List.count_eq_one_of_mem hnd hmem

/-- Witness for C7: three records completed in rotated order; the progress
reports are (1,3), (2,3), (3,3). -/
theorem check_all_progress_calls_witness :
    ([("10.2/b", "ub"), ("10.2/c", "uc"), ("10.2/a", "ua")].Perm
        [("10.2/a", "ua"), ("10.2/b", "ub"), ("10.2/c", "uc")]) ∧
      ([("10.2/a", "ua"), ("10.2/b", "ub"), ("10.2/c", "uc")] ≠
        ([] : List (String × String))) ∧
      ∃ rows ps,
        check_all [("10.2/a", "ua"), ("10.2/b", "ub"), ("10.2/c", "uc")]
            [("10.2/b", "ub"), ("10.2/c", "uc"), ("10.2/a", "ua")]
            (fun _ _ => .response 200) =
          some (rows, ps) ∧
        ps.length = [("10.2/a", "ua"), ("10.2/b", "ub"), ("10.2/c", "uc")].length ∧
        ps.map Prod.fst =
          List.range' 1 [("10.2/a", "ua"), ("10.2/b", "ub"), ("10.2/c", "uc")].length ∧
        (∀ q ∈ ps, q.2 = [("10.2/a", "ua"), ("10.2/b", "ub"), ("10.2/c", "uc")].length) ∧
        List.Pairwise (fun a b => a.1 < b.1) ps ∧
        ps.getLast? = some ([("10.2/a", "ua"), ("10.2/b", "ub"), ("10.2/c", "uc")].length,
          [("10.2/a", "ua"), ("10.2/b", "ub"), ("10.2/c", "uc")].length) ∧
        @List.count (Nat × Nat) instBEqOfDecidableEq
          ([("10.2/a", "ua"), ("10.2/b", "ub"), ("10.2/c", "uc")].length,
            [("10.2/a", "ua"), ("10.2/b", "ub"), ("10.2/c", "uc")].length) ps = 1 :=
  ⟨by decide, by decide,
    check_all_progress_calls _ _ (fun _ _ => .response 200) (by decide) (by decide)⟩

/-- Characters that force Python's `csv.writer` (default dialect,
QUOTE_MINIMAL) to quote a field: the delimiter, the quote char, and the
characters of the line terminator `\r\n`. -/
def isCsvSpecial (c : Char) : Bool :=
  c = ',' || c = '"' || c = '\r' || c = '\n'

/-- Double every quote character, as the default doublequote-escaping of
`csv.writer` does inside a quoted field. -/
def escQuotes : List Char → List Char
  | [] => []
  | c :: cs => if c = '"' then '"' :: '"' :: escQuotes cs else c :: escQuotes cs

/-- Encode one field: quoted (with doubled inner quotes) when it contains a
special character, verbatim otherwise. -/
def encField (f : List Char) : List Char :=
  if f.any isCsvSpecial then '"' :: (escQuotes f ++ ['"']) else f

/-- Encode one record: fields joined by `,`, terminated by `\r\n`
(`csv.writer`'s default `lineterminator`). -/
def encFields : List (List Char) → List Char
  | [] => ['\r', '\n']
  | [f] => encField f ++ ['\r', '\n']
  | f :: fs => encField f ++ ',' :: encFields fs

/-- Serialize a list of records. -/
def encRows (rows : List (List (List Char))) : List Char :=
  (rows.map encFields).flatten

/-- The header row written by `generate_csv`. -/
def csv_header : List String :=
  ["DOI", "Registered URL", "Resolves", "HTTP Status Code"]

/-- The four fields of one result tuple `(doi, reg_url, resolves,
status_code)` as `csv.writer` stringifies them. -/
def row_fields (r : String × String × String × StatusVal) : List String :=
  [r.1, r.2.1, r.2.2.1, r.2.2.2.render]

/-- `generate_csv(results)`: `writer.writerow` of the header followed by
`writer.writerows(results)`, returned as the accumulated string. -/
def generate_csv (results : List (String × String × String × StatusVal)) : String :=
  String.mk (encRows ((csv_header.map String.data) ::
    results.map (fun r => (row_fields r).map String.data)))

/-- A field terminator for an unquoted CSV field: delimiter or end of record. -/
def stopChar (c : Char) : Bool :=
  c = ',' || c = '\r' || c = '\n'

/-- Parse the body of a quoted field (the opening quote already consumed):
a doubled quote is a literal quote, a lone quote closes the field. Returns
the field and the remaining input; `none` on an unterminated field. -/
def parseQuoted : List Char → Option (List Char × List Char)
  | [] => none
  | c :: rest =>
    if c = '"' then
      match rest with
      | c2 :: rest2 =>
        if c2 = '"' then (parseQuoted rest2).map (fun p => ('"' :: p.1, p.2))
        else some ([], c2 :: rest2)
      | [] => some ([], [])
    else (parseQuoted rest).map (fun p => (c :: p.1, p.2))

/-- Parse one field: quoted if it starts with a quote, otherwise everything
up to the next delimiter or record terminator. -/
def parseField : List Char → Option (List Char × List Char)
  | [] => some ([], [])
  | c :: rest =>
    if c = '"' then parseQuoted rest
    else some ((c :: rest).takeWhile (fun x => !stopChar x),
      (c :: rest).dropWhile (fun x => !stopChar x))

/-- Parse the fields of one record up to and including its `\r\n` terminator.
`fuel` bounds the number of fields. -/
def parseFields : Nat → List Char → Option (List (List Char) × List Char)
  | 0, _ => none
  | fuel + 1, s =>
    match parseField s with
    | none => none
    | some (f, rest) =>
      match rest with
      | [] => none
      | c :: rest2 =>
        if c = ',' then (parseFields fuel rest2).map (fun p => (f :: p.1, p.2))
        else if c = '\r' then
          match rest2 with
          | c2 :: rest3 => if c2 = '\n' then some ([f], rest3) else none
          | [] => none
        else none

/-- Parse a sequence of `\r\n`-terminated records. `fuel` bounds the number
of records. -/
def parseRows : Nat → List Char → Option (List (List (List Char)))
  | _, [] => some []
  | 0, _ => none
  | fuel + 1, s =>
    match parseFields (s.length + 1) s with
    | none => none
    | some (r, rest) => (parseRows fuel rest).map (fun rs => r :: rs)

/-- Parse a CSV text into its records' fields. -/
def parse_csv (s : String) : Option (List (List String)) :=
  (parseRows (s.data.length + 1) s.data).map (fun rs => rs.map (fun r => r.map String.mk))

theorem parseQuoted_cons_ne (c : Char) (l : List Char) (hc : ¬(c = '"')) :
    parseQuoted (c :: l) = (parseQuoted l).map (fun p => (c :: p.1, p.2)) := by
  conv_lhs => unfold parseQuoted
  rw [if_neg hc]

theorem parseQuoted_quote_quote (l : List Char) :
    parseQuoted ('"' :: '"' :: l) = (parseQuoted l).map (fun p => ('"' :: p.1, p.2)) := by
  conv_lhs => unfold parseQuoted
  simp

theorem parseQuoted_quote_ne (c2 : Char) (l : List Char) (hc2 : ¬(c2 = '"')) :
    parseQuoted ('"' :: c2 :: l) = some ([], c2 :: l) := by
  conv_lhs => unfold parseQuoted
  simp [hc2]

theorem parseQuoted_escQuotes (f : List Char) :
    ∀ rest : List Char, rest.head? ≠ some '"' →
      parseQuoted (escQuotes f ++ '"' :: rest) = some (f, rest) := by
  induction f with
  | nil =>
    intro rest hrest
    cases rest with
    | nil => rfl
    | cons c2 rest2 =>
      have hc2 : ¬(c2 = '"') := fun h => hrest (by simp [h])
      show parseQuoted ('"' :: c2 :: rest2) = some ([], c2 :: rest2)
      exact parseQuoted_quote_ne c2 rest2 hc2
  | cons c f ih =>
    intro rest hrest
    by_cases hc : c = '"'
    · subst hc
      have hesc : escQuotes ('"' :: f) = '"' :: '"' :: escQuotes f := by
        simp [escQuotes]
      rw [hesc, List.cons_append, List.cons_append, parseQuoted_quote_quote,
        ih rest hrest]
      rfl
    · have hesc : escQuotes (c :: f) = c :: escQuotes f := by
        simp [escQuotes, hc]
      rw [hesc, List.cons_append, parseQuoted_cons_ne c _ hc, ih rest hrest]
      rfl

theorem takeWhile_append_of_all {p : Char → Bool} :
    ∀ (f rest : List Char), (∀ c ∈ f, p c = true) →
      (f ++ rest).takeWhile p = f ++ rest.takeWhile p := by
  intro f
  induction f with
  | nil => intro rest _; simp
  | cons c f ih =>
    intro rest hall
    have hc : p c = true := hall c (by simp)
    simp [List.takeWhile_cons, hc, ih rest (fun x hx => hall x (by simp [hx]))]

theorem dropWhile_append_of_all {p : Char → Bool} :
    ∀ (f rest : List Char), (∀ c ∈ f, p c = true) →
      (f ++ rest).dropWhile p = rest.dropWhile p := by
  intro f
  induction f with
  | nil => intro rest _; simp
  | cons c f ih =>
    intro rest hall
    have hc : p c = true := hall c (by simp)
    simp [List.dropWhile_cons, hc, ih rest (fun x hx => hall x (by simp [hx]))]

theorem not_special_no_stop (c : Char) (h : isCsvSpecial c = false) :
    stopChar c = false ∧ ¬(c = '"') := by
  simp only [isCsvSpecial, Bool.or_eq_false_iff, decide_eq_false_iff_not] at h
  simp only [stopChar, Bool.or_eq_false_iff, decide_eq_false_iff_not]
  tauto

theorem parseField_enc (f : List Char) (rest : List Char)
    (hrest : rest.head? = some ',' ∨ rest.head? = some '\r') :
    parseField (encField f ++ rest) = some (f, rest) := by
  obtain ⟨c0, rest0, hr0, hstop, hq0⟩ :
      ∃ c0 rest0, rest = c0 :: rest0 ∧ stopChar c0 = true ∧ ¬(c0 = '"') := by
    cases rest with
    | nil => rcases hrest with h | h <;> simp at h
    | cons c0 rest0 =>
      rcases hrest with h | h <;> simp at h <;> subst h
      · exact ⟨_, _, rfl, by decide, by decide⟩
      · exact ⟨_, _, rfl, by decide, by decide⟩
  by_cases hq : f.any isCsvSpecial
  · have henc : encField f ++ rest = '"' :: (escQuotes f ++ '"' :: rest) := by
      simp [encField, hq]
    rw [henc]
    have hhead : rest.head? ≠ some '"' := by
      rw [hr0]; simp; exact hq0
    simp [parseField, parseQuoted_escQuotes f rest hhead]
  · have hall : ∀ c ∈ f, isCsvSpecial c = false := by
      simpa using hq
    have henc : encField f = f := by simp [encField, hq]
    rw [henc]
    cases f with
    | nil =>
      rw [hr0]
      simp [parseField, hq0, List.takeWhile_cons, List.dropWhile_cons, hstop]
    | cons d f' =>
      have hd := not_special_no_stop d (hall d (by simp))
      have hall' : ∀ c ∈ d :: f', (!stopChar c) = true := by
        intro c hc
        have := not_special_no_stop c (hall c hc)
        simp [this.1]
      have htake : ((d :: f') ++ rest).takeWhile (fun x => !stopChar x) = d :: f' := by
        rw [takeWhile_append_of_all _ rest hall']
        rw [hr0]
        simp [List.takeWhile_cons, hstop]
      have hdrop : ((d :: f') ++ rest).dropWhile (fun x => !stopChar x) = rest := by
        rw [dropWhile_append_of_all _ rest hall']
        rw [hr0]
        simp [List.dropWhile_cons, hstop]
      simp [parseField, hd.2]
      exact ⟨by simpa using htake, by simpa using hdrop⟩

theorem encFields_cons_cons (f g : List Char) (fs : List (List Char)) :
    encFields (f :: g :: fs) = encField f ++ ',' :: encFields (g :: fs) := by
  simp [encFields]

theorem encFields_singleton (f : List Char) :
    encFields [f] = encField f ++ ['\r', '\n'] := by
  simp [encFields]

theorem parseFields_enc :
    ∀ (fs : List (List Char)) (f : List Char) (fuel : Nat) (rest : List Char),
      fs.length + 1 ≤ fuel →
      parseFields fuel (encFields (f :: fs) ++ rest) = some (f :: fs, rest) := by
  intro fs
  induction fs with
  | nil =>
    intro f fuel rest hfuel
    obtain ⟨k, rfl⟩ : ∃ k, fuel = k + 1 := ⟨fuel - 1, by omega⟩
    have henc : encFields [f] ++ rest = encField f ++ ('\r' :: '\n' :: rest) := by
      rw [encFields_singleton, List.append_assoc]
      rfl
    rw [henc]
    simp only [parseFields]
    rw [parseField_enc f ('\r' :: '\n' :: rest) (Or.inr rfl)]
    simp
  | cons g fs ih =>
    intro f fuel rest hfuel
    obtain ⟨k, rfl⟩ : ∃ k, fuel = k + 1 := ⟨fuel - 1, by omega⟩
    have henc : encFields (f :: g :: fs) ++ rest =
        encField f ++ (',' :: (encFields (g :: fs) ++ rest)) := by
      rw [encFields_cons_cons, List.append_assoc]
      rfl
    rw [henc]
    simp only [parseFields]
    rw [parseField_enc f (',' :: (encFields (g :: fs) ++ rest)) (Or.inl rfl)]
    have hk : fs.length + 1 ≤ k := by
      simp at hfuel
      omega
    simp [ih g k rest hk]

theorem encFields_ne_nil (fs : List (List Char)) : encFields fs ≠ [] := by
  match fs with
  | [] => simp [encFields]
  | [f] => simp [encFields]
  | f :: g :: fs => simp [encFields]

theorem encFields_length_ge :
    ∀ (fs : List (List Char)) (f : List Char), fs.length + 1 ≤ (encFields (f :: fs)).length := by
  intro fs
  induction fs with
  | nil => intro f; simp [encFields]
  | cons g fs ih =>
    intro f
    have := ih g
    rw [encFields_cons_cons]
    simp only [List.length_append, List.length_cons]
    omega

theorem encRows_cons (r : List (List Char)) (rows : List (List (List Char))) :
    encRows (r :: rows) = encFields r ++ encRows rows := by
  simp [encRows]

theorem encRows_length_ge (rows : List (List (List Char))) :
    rows.length ≤ (encRows rows).length := by
  induction rows with
  | nil => simp [encRows]
  | cons r rows ih =>
    rw [encRows_cons]
    have h1 : 1 ≤ (encFields r).length :=
      List.length_pos.mpr (encFields_ne_nil r)
    simp only [List.length_append, List.length_cons]
    omega

theorem parseRows_encRows :
    ∀ (rows : List (List (List Char))), (∀ r ∈ rows, r ≠ []) →
      ∀ fuel, rows.length < fuel →
        parseRows fuel (encRows rows) = some rows := by
  intro rows
  induction rows with
  | nil =>
    intro _ fuel _
    have : encRows [] = [] := by simp [encRows]
    rw [this]
    cases fuel <;> rfl
  | cons r rows ih =>
    intro hne fuel hfuel
    obtain ⟨k, rfl⟩ : ∃ k, fuel = k + 1 := ⟨fuel - 1, by omega⟩
    obtain ⟨f, fs, rfl⟩ : ∃ f fs, r = f :: fs := by
      cases r with
      | nil => exact absurd rfl (hne [] (by simp))
      | cons f fs => exact ⟨f, fs, rfl⟩
    rw [encRows_cons]
    obtain ⟨c, cs, hcs⟩ : ∃ c cs, encFields (f :: fs) ++ encRows rows = c :: cs := by
      cases hh : encFields (f :: fs) ++ encRows rows with
      | nil =>
        rw [List.append_eq_nil] at hh
        exact absurd hh.1 (encFields_ne_nil _)
      | cons c cs => exact ⟨c, cs, rfl⟩
    rw [hcs]
    simp only [parseRows]
    rw [← hcs]
    have hlenfuel : fs.length + 1 ≤ (encFields (f :: fs) ++ encRows rows).length + 1 := by
      have h1 := encFields_length_ge fs f
      simp only [List.length_append]
      omega
    rw [parseFields_enc fs f _ (encRows rows) hlenfuel]
    have hrec := ih (fun x hx => hne x (by simp [hx])) k (by simp at hfuel; omega)
    simp [hrec]

theorem data_mk (l : List Char) : (String.mk l).data = l := rfl

theorem map_mk_map_data (l : List String) : (l.map String.data).map String.mk = l := by
  rw [List.map_map]
  have h : (String.mk ∘ String.data) = id := rfl
  rw [h, List.map_id]

theorem mk_append_mk (a b : List Char) : String.mk a ++ String.mk b = String.mk (a ++ b) := rfl

/-- C8: `generate_csv` emits exactly the header row
`DOI,Registered URL,Resolves,HTTP Status Code` followed by one CSV record per
result row (fields quoted and quote-doubled per the standard rules exactly
when they contain a delimiter, quote or line-terminator character), and
parsing the serialized text recovers the header and every row's fields
verbatim.  `generate_csv` is a pure function of the row list, so the same
rows in the same order always serialize to the same string. -/
theorem generate_csv_round_trip (results : List (String × String × String × StatusVal)) :
    parse_csv (generate_csv results) = some (csv_header :: results.map row_fields) ∧
      ∃ body : String,
        generate_csv results = "DOI,Registered URL,Resolves,HTTP Status Code\r\n" ++ body := by
  have hrowsne : ∀ r ∈ (csv_header.map String.data) ::
      results.map (fun r => (row_fields r).map String.data), r ≠ [] := by
    intro r hr
    rcases List.mem_cons.mp hr with h | h
    · subst h; simp [csv_header]
    · obtain ⟨x, _, rfl⟩ := List.mem_map.mp h
      simp [row_fields]
  have hfuel := encRows_length_ge ((csv_header.map String.data) ::
    results.map (fun r => (row_fields r).map String.data))
  constructor
  · unfold parse_csv generate_csv
    rw [data_mk]
    rw [parseRows_encRows _ hrowsne _ (by omega)]
    simp only [Option.map_some']
    congr 1
    rw [List.map_cons]
    congr 1
    rw [List.map_map]
    apply List.map_congr_left
    intro r _
    exact map_mk_map_data (row_fields r)
  · refine ⟨String.mk (encRows (results.map (fun r => (row_fields r).map String.data))), ?_⟩
    have h2 : ("DOI,Registered URL,Resolves,HTTP Status Code\r\n" : String) =
        String.mk (encFields (csv_header.map String.data)) := by decide
    rw [h2, mk_append_mk]
    unfold generate_csv
    rw [encRows_cons]

/-- Modelled from the spec: the scheduling state of
`concurrent.futures.ThreadPoolExecutor`, an external library facility whose
code is not part of this repository.  A state counts the submitted check
tasks not yet started, those currently in flight, and those finished. -/
structure PoolState where
  pending : Nat
  running : Nat
  done : Nat
deriving DecidableEq, Repr

/-- Modelled from the spec: a `ThreadPoolExecutor(max_workers=maxW)` may start
a pending task only while fewer than `maxW` tasks are in flight, and any
in-flight task may finish; nothing else changes the state. -/
inductive PoolStep (maxW : Nat) : PoolState → PoolState → Prop
  | start (s : PoolState) (hp : 0 < s.pending) (hr : s.running < maxW) :
      PoolStep maxW s ⟨s.pending - 1, s.running + 1, s.done⟩
  | finish (s : PoolState) (hr : 0 < s.running) :
      PoolStep maxW s ⟨s.pending, s.running - 1, s.done + 1⟩

/-- The pool state right after submitting the `n` check futures. -/
def poolInit (n : Nat) : PoolState := ⟨n, 0, 0⟩

/-- C9: in every state the executor (created with
`max_workers=MAX_WORKERS`) can reach from `n` submitted checks — even when
`n` far exceeds the cap — at most 10 checks are simultaneously in flight;
`MAX_WORKERS` is the fixed constant 10, not adjustable by the caller. -/
theorem pool_concurrency_bound (n : Nat) (s : PoolState)
    (h : Relation.ReflTransGen (PoolStep MAX_WORKERS) (poolInit n) s) :
    s.running ≤ 10 := by
  have hmw : MAX_WORKERS = 10 := rfl
  rw [← hmw]
  induction h with
  | refl => simp [poolInit]
  | tail hab hstep ih =>
    cases hstep with
    | start hp hr => simpa using hr
    | finish hr =>
      simp only
      omega

/-- Witness for C9: with 25 submitted checks, starting one task yields a
reachable state, and its in-flight count obeys the bound. -/
theorem pool_concurrency_bound_witness :
    Relation.ReflTransGen (PoolStep MAX_WORKERS) (poolInit 25)
        (⟨24, 1, 0⟩ : PoolState) ∧
      (⟨24, 1, 0⟩ : PoolState).running ≤ 10 :=
  ⟨Relation.ReflTransGen.single (PoolStep.start (poolInit 25) (by decide) (by decide)),
    pool_concurrency_bound 25 ⟨24, 1, 0⟩
      (Relation.ReflTransGen.single (PoolStep.start (poolInit 25) (by decide) (by decide)))⟩

/-- `hash_credentials(username, password)`: the source computes
`hashlib.sha256(f"{username}:{password}".encode()).hexdigest()`.  The SHA-256
hex digest is an external library function, modelled as an arbitrary function
`H` of the combined string — which is all the collision argument needs: the
`f"{u}:{p}"` combination step is not injective, so the composite is not,
whatever digest `H` is. -/
def hash_credentials (H : String → String) (username password : String) : String :=
  H (username ++ ":" ++ password)

/-- C10: `hash_credentials` is not injective: the distinct credential pairs
`("a", "b:c")` and `("a:b", "c")` both combine to `"a:b:c"` and therefore
hash identically, for any digest function — so the displayed fingerprint
does not uniquely identify a credential pair. -/
theorem hash_credentials_not_injective (H : String → String) :
    (("a", "b:c") : String × String) ≠ ("a:b", "c") ∧
      hash_credentials H "a" "b:c" = hash_credentials H "a:b" "c" :=
  ⟨by decide, congrArg H (by decide)⟩
